import Mathlib

/-!
Verification of the tool capability resolution engine of the Roo-Code
repository (src/unnamed/part_000): alias registry, model tool customization,
feature gating, mode-based filtering (`filterNativeToolsForMode`) and the
single-tool predicate (`isToolAllowedInMode`).

The TypeScript source is embedded shallowly: `Set<string>` becomes
`List String` used up to membership, `Map` becomes an association list with
first-match lookup (a freshly consed entry shadows older ones, matching
`Map.set` overwrite semantics), thrown errors become an `Option String`
error component, and optional/undefined values become `Option`.

Collaborators imported from elsewhere in the repository (shared/modes,
shared/tools, the tool instances) are not among the given sources; they are
modelled from the specification and marked as such in their doc comments.
-/

namespace RooTools

/-- One entry of TOOL_GROUPS: a group's default-granted tools and its
optional opt-in-only customTools partition. -/
structure GroupConfig where
  tools : List String
  customTools : Option (List String)
deriving DecidableEq, Repr

/-- A mode's group entry: either a bare group name or a group name paired
with a restriction payload (the source tests `Array.isArray(groupEntry)`
and takes element 0 for the name). -/
inductive GroupEntry where
  | simple (name : String)
  | withOptions (name : String) (fileRegex : String)
deriving DecidableEq, Repr

/-- The group name of a group entry (`Array.isArray(e) ? e[0] : e`). -/
def GroupEntry.entryName : GroupEntry → String
  | .simple n => n
  | .withOptions n _ => n

/-- A mode configuration: slug and ordered permitted group entries. -/
structure ModeConfig where
  slug : String
  groups : List GroupEntry
deriving DecidableEq, Repr

/-- The static collaborator data the engine reads: TOOL_GROUPS and
ALWAYS_AVAILABLE_TOOLS (shared/tools) and the built-in mode registry with
its default slug (shared/modes). -/
structure ToolEnv where
  TOOL_GROUPS : List (String × GroupConfig)
  ALWAYS_AVAILABLE_TOOLS : List String
  builtinModes : List ModeConfig
  defaultModeSlug : String
deriving DecidableEq, Repr

/-- The process-wide alias maps: canonical name to alias list and the
reverse alias-to-canonical map. -/
structure AliasRegistry where
  TOOL_ALIASES : List (String × List String)
  ALIAS_TO_CANONICAL : List (String × String)
deriving DecidableEq, Repr

/-- Per-model tool customization facts. -/
structure ModelInfo where
  excludedTools : Option (List String)
  includedTools : Option (List String)
deriving DecidableEq, Repr

/-- The settings bag fields consulted by the engine; an absent field models
an undefined property of the loosely-typed record. -/
structure Settings where
  modelInfo : Option ModelInfo
  todoListEnabled : Option Bool
  browserToolEnabled : Option Bool
  diffEnabled : Option Bool
deriving DecidableEq, Repr

/-- The experiment flags consulted by the engine. -/
structure Experiments where
  imageGeneration : Option Bool
  runSlashCommand : Option Bool
deriving DecidableEq, Repr

/-- The code index manager facts consulted for the codebase_search gate. -/
structure CodeIndexManager where
  isFeatureEnabled : Bool
  isFeatureConfigured : Bool
  isInitialized : Bool
deriving DecidableEq, Repr

/-- One MCP server as seen by the resource gate. -/
structure McpServer where
  resources : Option (List String)
deriving DecidableEq, Repr

/-- The MCP hub: its list of servers. -/
structure McpHub where
  servers : List McpServer
deriving DecidableEq, Repr

/-- The function part of a chat-completion tool definition. -/
structure ToolFunction where
  name : String
  description : String
deriving DecidableEq, Repr

/-- A candidate tool definition; `function = none` models an entry that is
not a function-style tool (no `function` property). The `type_` field
stands for the remaining payload preserved by the rename clone. -/
structure ChatCompletionTool where
  type_ : String
  function : Option ToolFunction
deriving DecidableEq, Repr

/-- getAllToolNames: every tool name occurring in TOOL_GROUPS, regular
tools and customTools alike. -/
def getAllToolNames (env : ToolEnv) : List String :=
  env.TOOL_GROUPS.foldl (fun acc g => acc ++ g.2.tools ++ g.2.customTools.getD []) []

/-- The per-alias validation of registerToolAliases, in source order: the
alias is already in the reverse map, is a canonical key of the alias map,
or collides with a known tool name of the group catalog. -/
def aliasConflict (env : ToolEnv) (reg : AliasRegistry) (a : String) : Bool :=
  (reg.ALIAS_TO_CANONICAL.lookup a).isSome || (reg.TOOL_ALIASES.lookup a).isSome
    || decide (a ∈ getAllToolNames env)

/-- registerToolAliases: validates every alias of the list against the
reverse map, the canonical keys and all known tool names before touching
either map; on a conflict it reports the error with the maps untouched,
otherwise it records the alias list and the reverse entries. -/
def registerToolAliases (env : ToolEnv) (reg : AliasRegistry) (toolName : String)
    (aliases : List String) : AliasRegistry × Option String :=
  if aliases.isEmpty then (reg, none)
  else
    match aliases.find? (aliasConflict env reg) with
    | some a =>
      (reg, some (match reg.ALIAS_TO_CANONICAL.lookup a with
        | some owner =>
          "Duplicate tool alias " ++ a ++ " - already registered for tool " ++ owner
        | none =>
          if (reg.TOOL_ALIASES.lookup a).isSome then
            "Alias " ++ a ++ " conflicts with canonical tool name in alias registry"
          else
            "Alias " ++ a ++ " conflicts with existing tool name"))
    | none =>
      ({ TOOL_ALIASES := (toolName, aliases) :: reg.TOOL_ALIASES,
         ALIAS_TO_CANONICAL :=
           aliases.foldl (fun m a => (a, toolName) :: m) reg.ALIAS_TO_CANONICAL },
       none)

/-- resolveToolAlias: an alias resolves to its canonical name, anything
else resolves to itself. -/
def resolveToolAlias (reg : AliasRegistry) (toolName : String) : String :=
  (reg.ALIAS_TO_CANONICAL.lookup toolName).getD toolName

/-- applyToolAliases: resolve every member of the allowed set to its
canonical name. -/
def applyToolAliases (reg : AliasRegistry) (allowedTools : List String) : List String :=
  allowedTools.map (resolveToolAlias reg)

/-- getToolAliasGroup: the canonical tool followed by its aliases, for any
name of the group; a singleton for an unaliased name. -/
def getToolAliasGroup (reg : AliasRegistry) (toolName : String) : List String :=
  match reg.TOOL_ALIASES.lookup toolName with
  | some aliases => toolName :: aliases
  | none =>
    match reg.ALIAS_TO_CANONICAL.lookup toolName with
    | some canonical => canonical :: ((reg.TOOL_ALIASES.lookup canonical).getD [])
    | none => [toolName]

/-- Modelled from the spec: `getModeBySlug` (shared/modes, not among the
given sources) looks a slug up among the custom modes and the built-in
modes and returns its ModeConfig when found. -/
def getModeBySlug (env : ToolEnv) (slug : String)
    (customModes : Option (List ModeConfig)) : Option ModeConfig :=
  match (customModes.getD []).find? (fun m => m.slug == slug) with
  | some m => some m
  | none => env.builtinModes.find? (fun m => m.slug == slug)

/-- The dead-branch mode configuration standing for the source's non-null
assertion on the default-mode lookup. -/
def fallbackModeConfig : ModeConfig := ⟨"", []⟩

/-- Mode resolution with default fallback, as in the source of
filterNativeToolsForMode: the requested slug's config when found, else the
default slug's config. -/
def resolveModeOrDefault (env : ToolEnv) (slug : String)
    (customModes : Option (List ModeConfig)) : ModeConfig :=
  match getModeBySlug env slug customModes with
  | some m => m
  | none => (getModeBySlug env env.defaultModeSlug customModes).getD fallbackModeConfig

/-- Modelled from the spec: `getToolsForMode` (shared/modes, not among the
given sources): the union of every listed group's tools partition (not
customTools) plus the always-available tools. -/
def getToolsForMode (env : ToolEnv) (groups : List GroupEntry) : List String :=
  groups.foldl (fun acc ge =>
    acc ++ (match env.TOOL_GROUPS.lookup ge.entryName with
            | some gc => gc.tools
            | none => [])) [] ++ env.ALWAYS_AVAILABLE_TOOLS

/-- Modelled from the spec: `isToolAllowedForMode` (shared/modes, not among
the given sources): always-available tools pass before any group check;
otherwise the tool must be in the tools partition of a group permitted by
the resolved mode (unknown slugs fall back to the default mode). The call
sites in this module pass no tool requirements or params, and experiment
gating is performed by the dedicated gates here, so neither is modelled. -/
def isToolAllowedForMode (env : ToolEnv) (tool : String) (modeSlug : String)
    (customModes : List ModeConfig) (_experiments : Experiments) : Bool :=
  if tool ∈ env.ALWAYS_AVAILABLE_TOOLS then true
  else
    (resolveModeOrDefault env modeSlug (some customModes)).groups.any (fun ge =>
      match env.TOOL_GROUPS.lookup ge.entryName with
      | some gc => decide (tool ∈ gc.tools)
      | none => false)

/-- Result of applyModelToolCustomization: the customized allowed set and
the canonical-to-alias rename map. -/
structure ModelToolCustomizationResult where
  allowedTools : List String
  aliasRenames : List (String × String)
deriving DecidableEq, Repr

/-- The tool-to-group map built by applyModelToolCustomization from
TOOL_GROUPS, covering regular tools and customTools. -/
def buildToolToGroup (env : ToolEnv) : List (String × String) :=
  env.TOOL_GROUPS.foldl (fun m g =>
    (g.2.tools ++ g.2.customTools.getD []).foldl (fun acc t => (t, g.1) :: acc) m) []

/-- Set insertion used for the included-tools pass. -/
def addTool (s : List String) (t : String) : List String :=
  if t ∈ s then s else s ++ [t]

/-- One step of the included-tools pass: resolve the entry, look up its
group, and when the group is permitted add the canonical tool and record a
rename when the entry was an alias. -/
def includeStep (reg : AliasRegistry) (toolToGroup : List (String × String))
    (allowedGroups : List String) (acc : List String × List (String × String))
    (tool : String) : List String × List (String × String) :=
  match toolToGroup.lookup (resolveToolAlias reg tool) with
  | some g =>
    if g ∈ allowedGroups then
      (addTool acc.1 (resolveToolAlias reg tool),
       if tool ≠ resolveToolAlias reg tool then
         (resolveToolAlias reg tool, tool) :: acc.2
       else acc.2)
    else acc
  | none => acc

/-- applyModelToolCustomization: remove the resolved excludedTools from the
allowed set, then add each resolved includedTools entry whose group the
mode permits, recording alias renames; absent modelInfo leaves the set
unchanged. -/
def applyModelToolCustomization (env : ToolEnv) (reg : AliasRegistry)
    (allowedTools : List String) (modeConfig : ModeConfig)
    (modelInfo : Option ModelInfo) : ModelToolCustomizationResult :=
  match modelInfo with
  | none => ⟨allowedTools, []⟩
  | some mi =>
    let afterExcluded := (mi.excludedTools.getD []).foldl
      (fun s tool => s.filter (fun x => x != resolveToolAlias reg tool)) allowedTools
    let toolToGroup := buildToolToGroup env
    let allowedGroups := modeConfig.groups.map GroupEntry.entryName
    let out := (mi.includedTools.getD []).foldl
      (includeStep reg toolToGroup allowedGroups) (afterExcluded, [])
    ⟨out.1, out.2⟩

/-- The codebase_search gate condition: the manager exists and its feature
is enabled, configured and initialized. -/
def mgrOk : Option CodeIndexManager → Bool
  | some m => m.isFeatureEnabled && m.isFeatureConfigured && m.isInitialized
  | none => false

/-- hasAnyMcpResources: some server exposes a non-empty resource list. -/
def hasAnyMcpResources (hub : McpHub) : Bool :=
  hub.servers.any (fun s =>
    match s.resources with
    | some rs => decide (0 < rs.length)
    | none => false)

/-- The access_mcp_resource gate condition: a hub exists and has resources. -/
def mcpResourcesOk : Option McpHub → Bool
  | some h => hasAnyMcpResources h
  | none => false

/-- One feature gate: keep the set when the condition holds, else remove
the gated name. -/
def gateStep (cond : Bool) (gated : String) (allowed : List String) : List String :=
  if cond then allowed else allowed.filter (fun x => x != gated)

/-- The sequential feature gates of filterNativeToolsForMode, in source
order: code index, todo list, image generation, slash command, browser,
diff, MCP resources. -/
def applyGates (experiments : Experiments) (codeIndexManager : Option CodeIndexManager)
    (settings : Settings) (mcpHub : Option McpHub) (allowed : List String) : List String :=
  let a1 := gateStep (mgrOk codeIndexManager) "codebase_search" allowed
  let a2 := gateStep (!(settings.todoListEnabled == some false)) "update_todo_list" a1
  let a3 := gateStep (experiments.imageGeneration == some true) "generate_image" a2
  let a4 := gateStep (experiments.runSlashCommand == some true) "run_slash_command" a3
  let a5 := gateStep (!(settings.browserToolEnabled == some false)) "browser_action" a4
  let a6 := gateStep (!(settings.diffEnabled == some false)) "apply_diff" a5
  gateStep (mcpResourcesOk mcpHub) "access_mcp_resource" a6

/-- The mode base set of filterNativeToolsForMode: the tools of the
resolved mode, filtered by the shared permission predicate. -/
def baseAllowedTools (env : ToolEnv) (mode : Option String)
    (customModes : Option (List ModeConfig)) (experiments : Experiments) : List String :=
  (getToolsForMode env
      (resolveModeOrDefault env (mode.getD env.defaultModeSlug) customModes).groups).filter
    (fun tool =>
      isToolAllowedForMode env tool (mode.getD env.defaultModeSlug)
        (customModes.getD []) experiments)

/-- The model customization step of filterNativeToolsForMode applied to the
mode base set. -/
def customizationResult (env : ToolEnv) (reg : AliasRegistry) (mode : Option String)
    (customModes : Option (List ModeConfig)) (experiments : Experiments)
    (settings : Settings) : ModelToolCustomizationResult :=
  applyModelToolCustomization env reg
    (baseAllowedTools env mode customModes experiments)
    (resolveModeOrDefault env (mode.getD env.defaultModeSlug) customModes)
    settings.modelInfo

/-- The allowed-name set and the rename map computed by
filterNativeToolsForMode before the emission pass: mode resolution with
default fallback, mode base set filtered by the permission predicate, model
customization, alias canonicalization, then the feature gates. -/
def computeAllowedSet (env : ToolEnv) (reg : AliasRegistry) (mode : Option String)
    (customModes : Option (List ModeConfig)) (experiments : Experiments)
    (codeIndexManager : Option CodeIndexManager) (settings : Settings)
    (mcpHub : Option McpHub) : List String × List (String × String) :=
  (applyGates experiments codeIndexManager settings mcpHub
     (applyToolAliases reg
       (customizationResult env reg mode customModes experiments settings).allowedTools),
   (customizationResult env reg mode customModes experiments settings).aliasRenames)

/-- The emission pass of filterNativeToolsForMode for one candidate: only
function-style entries are considered; an allowed entry is emitted, cloned
under its recorded alias name when the model requested one. -/
def emitTool (aliasRenames : List (String × String)) (allowed : List String)
    (tool : ChatCompletionTool) : Option ChatCompletionTool :=
  match tool.function with
  | some fn =>
    if fn.name ∈ allowed then
      some (match aliasRenames.lookup fn.name with
        | some aliasName => { tool with function := some { fn with name := aliasName } }
        | none => tool)
    else none
  | none => none

/-- filterNativeToolsForMode: compute the allowed set and renames, then
emit the allowed candidates in input order. -/
def filterNativeToolsForMode (env : ToolEnv) (reg : AliasRegistry)
    (nativeTools : List ChatCompletionTool) (mode : Option String)
    (customModes : Option (List ModeConfig)) (experiments : Experiments)
    (codeIndexManager : Option CodeIndexManager) (settings : Settings)
    (mcpHub : Option McpHub) : List ChatCompletionTool :=
  nativeTools.filterMap
    (emitTool
      (computeAllowedSet env reg mode customModes experiments codeIndexManager
        settings mcpHub).2
      (computeAllowedSet env reg mode customModes experiments codeIndexManager
        settings mcpHub).1)

/-- isToolAllowedInMode: always-available tools pass apart from the four
conditional exclusions; browser_action honors its setting; anything else is
allowed when some member of its alias group passes the mode predicate. -/
def isToolAllowedInMode (env : ToolEnv) (reg : AliasRegistry) (toolName : String)
    (mode : Option String) (customModes : Option (List ModeConfig))
    (experiments : Experiments) (codeIndexManager : Option CodeIndexManager)
    (settings : Settings) : Bool :=
  if toolName ∈ env.ALWAYS_AVAILABLE_TOOLS then
    if toolName = "codebase_search" then mgrOk codeIndexManager
    else if toolName = "update_todo_list" then !(settings.todoListEnabled == some false)
    else if toolName = "generate_image" then experiments.imageGeneration == some true
    else if toolName = "run_slash_command" then experiments.runSlashCommand == some true
    else true
  else if toolName = "browser_action" ∧ settings.browserToolEnabled = some false then
    false
  else
    (getToolAliasGroup reg toolName).any (fun aliasedTool =>
      isToolAllowedForMode env aliasedTool (mode.getD env.defaultModeSlug)
        (customModes.getD []) experiments)

/-- Modelled from the spec: the TOOL_GROUPS contents (shared/tools, not
among the given sources), instantiating the groups named by the spec with
the tool names it mentions, including an opt-in customTools entry. -/
def specToolGroups : List (String × GroupConfig) :=
  [("read", ⟨["read_file", "search_files", "list_files"], none⟩),
   ("edit", ⟨["apply_diff", "write_to_file", "search_and_replace"],
             some ["edit_opt_in_tool"]⟩),
   ("browser", ⟨["browser_action"], none⟩),
   ("command", ⟨["execute_command"], none⟩),
   ("mcp", ⟨["use_mcp_tool", "access_mcp_resource"], none⟩)]

/-- Modelled from the spec: the ALWAYS_AVAILABLE_TOOLS contents
(shared/tools, not among the given sources); the four conditionally
excluded tools of isToolAllowedInMode are members, as that function's
structure requires. -/
def specAlwaysAvailable : List String :=
  ["ask_followup_question", "attempt_completion", "update_todo_list",
   "codebase_search", "generate_image", "run_slash_command"]

/-- Modelled from the spec: the built-in mode registry (shared/modes, not
among the given sources): a default code mode permitting every group and a
read-only ask mode. -/
def specBuiltinModes : List ModeConfig :=
  [⟨"code", [GroupEntry.simple "read", GroupEntry.simple "edit",
             GroupEntry.simple "browser", GroupEntry.simple "command",
             GroupEntry.simple "mcp"]⟩,
   ⟨"ask", [GroupEntry.simple "read"]⟩]

/-- The concrete spec-modelled environment. -/
def specEnv : ToolEnv :=
  ⟨specToolGroups, specAlwaysAvailable, specBuiltinModes, "code"⟩

/-- Modelled from the spec: the alias registry built at module load by the
three registration calls of the source; the tool instances' alias lists are
not among the given sources, and the spec documents the single alias
search_replace_alias for search_and_replace, so the other two lists are
modelled as empty. -/
def specRegistry : AliasRegistry :=
  (registerToolAliases specEnv
    (registerToolAliases specEnv
      (registerToolAliases specEnv ⟨[], []⟩ "search_and_replace"
        ["search_replace_alias"]).1
      "write_to_file" []).1
    "apply_diff" []).1

/-- A successful association-list lookup exhibits a member pair. -/
theorem lookup_mem {α β : Type} [BEq α] [LawfulBEq α] {l : List (α × β)} {k : α} {v : β}
    (h : l.lookup k = some v) : (k, v) ∈ l := by
  induction l with
  | nil => simp [List.lookup] at h
  | cons p rest ih =>
    obtain ⟨a, b⟩ := p
    rw [List.lookup] at h
    cases hk : k == a with
    | true =>
      rw [hk] at h
      have hkp : k = a := eq_of_beq hk
      have hv : b = v := by simpa using h
      rw [hkp, ← hv]
      exact List.mem_cons_self _ _
    | false =>
      rw [hk] at h
      exact List.mem_cons_of_mem _ (ih h)

/-- Membership in the set-insertion helper. -/
theorem mem_addTool {s : List String} {t x : String} :
    x ∈ addTool s t ↔ x ∈ s ∨ x = t := by
  unfold addTool
  split
  · rename_i h
    exact ⟨Or.inl, fun hx => hx.elim id (fun he => he ▸ h)⟩
  · simp [List.mem_append]

/-- Membership through one feature gate step. -/
theorem mem_gateStep {c : Bool} {g x : String} {l : List String} :
    x ∈ gateStep c g l ↔ x ∈ l ∧ (x = g → c = true) := by
  unfold gateStep
  split
  · rename_i h
    simp [h]
  · rename_i h
    have hc : c = false := by
      cases c
      · rfl
      · exact absurd rfl h
    simp [List.mem_filter, bne_iff_ne, hc]

/-- Membership through the full gate sequence, as one condition per gated
tool name. -/
theorem mem_applyGates {e : Experiments} {m : Option CodeIndexManager} {s : Settings}
    {h : Option McpHub} {l : List String} {x : String} :
    x ∈ applyGates e m s h l ↔ x ∈ l
      ∧ (x = "codebase_search" → mgrOk m = true)
      ∧ (x = "update_todo_list" → ¬ s.todoListEnabled = some false)
      ∧ (x = "generate_image" → e.imageGeneration = some true)
      ∧ (x = "run_slash_command" → e.runSlashCommand = some true)
      ∧ (x = "browser_action" → ¬ s.browserToolEnabled = some false)
      ∧ (x = "apply_diff" → ¬ s.diffEnabled = some false)
      ∧ (x = "access_mcp_resource" → mcpResourcesOk h = true) := by
  simp only [applyGates, mem_gateStep, Bool.not_eq_true', beq_eq_false_iff_ne,
    ne_eq, beq_iff_eq, and_assoc]

/-- Membership in the alias canonicalization pass. -/
theorem mem_applyToolAliases {reg : AliasRegistry} {l : List String} {x : String} :
    x ∈ applyToolAliases reg l ↔ ∃ t ∈ l, resolveToolAlias reg t = x := by
  simp [applyToolAliases, List.mem_map]

/-- Membership in the tools block selected for a group entry. -/
theorem mem_lookup_tools {env : ToolEnv} {n : String} {x : String} :
    (x ∈ (match env.TOOL_GROUPS.lookup n with
          | some gc => gc.tools
          | none => ([] : List String))) ↔
      ∃ gc, env.TOOL_GROUPS.lookup n = some gc ∧ x ∈ gc.tools := by
  cases h : env.TOOL_GROUPS.lookup n <;> simp [h]

/-- Membership in the group-union fold of getToolsForMode. -/
theorem mem_getToolsFold {env : ToolEnv} :
    ∀ (gs : List GroupEntry) (acc : List String) (x : String),
      x ∈ gs.foldl (fun acc ge =>
          acc ++ (match env.TOOL_GROUPS.lookup ge.entryName with
                  | some gc => gc.tools
                  | none => [])) acc ↔
        x ∈ acc ∨ ∃ ge ∈ gs, ∃ gc,
          env.TOOL_GROUPS.lookup ge.entryName = some gc ∧ x ∈ gc.tools := by
  intro gs
  induction gs with
  | nil => simp
  | cons ge rest ih =>
    intro acc x
    rw [List.foldl_cons, ih]
    simp only [List.mem_append, mem_lookup_tools, List.mem_cons]
    constructor
    · rintro (⟨hx | hb⟩ | ⟨ge', hge', hx⟩)
      · exact Or.inl hx
      · exact Or.inr ⟨ge, Or.inl rfl, hb⟩
      · exact Or.inr ⟨ge', Or.inr hge', hx⟩
    · rintro (hx | ⟨ge', hge' | hge', hx⟩)
      · exact Or.inl (Or.inl hx)
      · exact Or.inl (Or.inr (hge' ▸ hx))
      · exact Or.inr ⟨ge', hge', hx⟩

/-- Membership in the mode base tool list. -/
theorem mem_getToolsForMode {env : ToolEnv} {gs : List GroupEntry} {x : String} :
    x ∈ getToolsForMode env gs ↔
      (∃ ge ∈ gs, ∃ gc, env.TOOL_GROUPS.lookup ge.entryName = some gc ∧ x ∈ gc.tools)
      ∨ x ∈ env.ALWAYS_AVAILABLE_TOOLS := by
  unfold getToolsForMode
  rw [List.mem_append, mem_getToolsFold]
  simp only [List.not_mem_nil, false_or]

/-- Membership after the excludedTools removal fold. -/
theorem mem_excludeFold {reg : AliasRegistry} :
    ∀ (l : List String) (s : List String) (x : String),
      x ∈ l.foldl (fun s tool => s.filter (fun y => y != resolveToolAlias reg tool)) s ↔
        x ∈ s ∧ ∀ t ∈ l, x ≠ resolveToolAlias reg t := by
  intro l
  induction l with
  | nil => simp
  | cons t rest ih =>
    intro s x
    rw [List.foldl_cons, ih]
    simp only [List.mem_filter, bne_iff_ne, ne_eq, decide_eq_true_eq, List.mem_cons]
    constructor
    · rintro ⟨⟨hx, hne⟩, hall⟩
      exact ⟨hx, fun t' ht' => ht'.elim (fun he => he ▸ hne) (hall t')⟩
    · rintro ⟨hx, hall⟩
      exact ⟨⟨hx, hall t (Or.inl rfl)⟩, fun t' ht' => hall t' (Or.inr ht')⟩

/-- Membership in the allowed set after one includedTools step. -/
theorem mem_includeStep_fst {reg : AliasRegistry} {ttg : List (String × String)}
    {ag : List String} {acc : List String × List (String × String)} {t x : String} :
    x ∈ (includeStep reg ttg ag acc t).1 ↔
      x ∈ acc.1 ∨ (resolveToolAlias reg t = x ∧ ∃ g, ttg.lookup x = some g ∧ g ∈ ag) := by
  unfold includeStep
  cases h : ttg.lookup (resolveToolAlias reg t) with
  | none =>
    simp only [h]
    constructor
    · exact Or.inl
    · rintro (hx | ⟨hrx, g, hg, _⟩)
      · exact hx
      · rw [hrx] at h
        rw [h] at hg
        cases hg
  | some g0 =>
    by_cases hg0 : g0 ∈ ag
    · simp only [h, if_pos hg0]
      rw [mem_addTool]
      constructor
      · rintro (hx | he)
        · exact Or.inl hx
        · refine Or.inr ⟨he.symm, g0, ?_, hg0⟩
          rw [he, h]
      · rintro (hx | ⟨hrx, g, hgl, hga⟩)
        · exact Or.inl hx
        · exact Or.inr hrx.symm
    · simp only [h, if_neg hg0]
      constructor
      · exact Or.inl
      · rintro (hx | ⟨hrx, g, hgl, hga⟩)
        · exact hx
        · rw [hrx] at h
          rw [h] at hgl
          cases hgl
          exact absurd hga hg0

/-- A pair in the rename component after one includedTools step. -/
theorem mem_includeStep_snd {reg : AliasRegistry} {ttg : List (String × String)}
    {ag : List String} {acc : List String × List (String × String)} {t : String}
    {p : String × String} (h : p ∈ (includeStep reg ttg ag acc t).2) :
    p ∈ acc.2 ∨ (p = (resolveToolAlias reg t, t) ∧ t ≠ resolveToolAlias reg t) := by
  unfold includeStep at h
  cases hl : ttg.lookup (resolveToolAlias reg t) with
  | none =>
    simp only [hl] at h
    exact Or.inl h
  | some g0 =>
    simp only [hl] at h
    by_cases hg0 : g0 ∈ ag
    · rw [if_pos hg0] at h
      by_cases hne : t ≠ resolveToolAlias reg t
      · rw [if_pos hne] at h
        rcases List.mem_cons.mp h with he | hm
        · exact Or.inr ⟨he, hne⟩
        · exact Or.inl hm
      · rw [if_neg hne] at h
        exact Or.inl h
    · rw [if_neg hg0] at h
      exact Or.inl h

/-- Membership in the allowed set after the includedTools fold. -/
theorem mem_includeFold_fst {reg : AliasRegistry} {ttg : List (String × String)}
    {ag : List String} :
    ∀ (l : List String) (acc : List String × List (String × String)) (x : String),
      x ∈ (l.foldl (includeStep reg ttg ag) acc).1 ↔
        x ∈ acc.1 ∨ ∃ t ∈ l, resolveToolAlias reg t = x ∧
          ∃ g, ttg.lookup x = some g ∧ g ∈ ag := by
  intro l
  induction l with
  | nil => simp
  | cons t rest ih =>
    intro acc x
    rw [List.foldl_cons, ih, mem_includeStep_fst]
    simp only [List.mem_cons]
    constructor
    · rintro ((hx | hhead) | ⟨t', ht', hrest⟩)
      · exact Or.inl hx
      · exact Or.inr ⟨t, Or.inl rfl, hhead⟩
      · exact Or.inr ⟨t', Or.inr ht', hrest⟩
    · rintro (hx | ⟨t', ht' | ht', hp⟩)
      · exact Or.inl (Or.inl hx)
      · exact Or.inl (Or.inr (ht' ▸ hp))
      · exact Or.inr ⟨t', ht', hp⟩

/-- A pair in the rename component after the includedTools fold resolves to
its key: every recorded rename maps a canonical tool to an alias of it. -/
theorem mem_includeFold_snd {reg : AliasRegistry} {ttg : List (String × String)}
    {ag : List String} :
    ∀ (l : List String) (acc : List String × List (String × String))
      (p : String × String), p ∈ (l.foldl (includeStep reg ttg ag) acc).2 →
        p ∈ acc.2 ∨ (resolveToolAlias reg p.2 = p.1 ∧ p.2 ≠ p.1) := by
  intro l
  induction l with
  | nil =>
    intro acc p h
    exact Or.inl h
  | cons t rest ih =>
    intro acc p h
    rw [List.foldl_cons] at h
    rcases ih _ p h with hm | hres
    · rcases mem_includeStep_snd hm with hm' | ⟨he, hne⟩
      · exact Or.inl hm'
      · refine Or.inr ?_
        rw [he]
        exact ⟨rfl, hne⟩
    · exact Or.inr hres

/-- Membership in the customized allowed set when modelInfo is present:
either the tool survived the base set and no excluded entry resolves to it,
or some included entry resolves to it and its group is permitted. -/
theorem mem_customization_some {env : ToolEnv} {reg : AliasRegistry}
    {base : List String} {mc : ModeConfig} {mi : ModelInfo} {x : String} :
    x ∈ (applyModelToolCustomization env reg base mc (some mi)).allowedTools ↔
      (x ∈ base ∧ ∀ t ∈ mi.excludedTools.getD [], x ≠ resolveToolAlias reg t)
      ∨ ∃ t ∈ mi.includedTools.getD [], resolveToolAlias reg t = x ∧
          ∃ g, (buildToolToGroup env).lookup x = some g ∧
            g ∈ mc.groups.map GroupEntry.entryName := by
  show x ∈ ((mi.includedTools.getD []).foldl
      (includeStep reg (buildToolToGroup env) (mc.groups.map GroupEntry.entryName))
      ((mi.excludedTools.getD []).foldl
        (fun s tool => s.filter (fun y => y != resolveToolAlias reg tool)) base,
       [])).1 ↔ _
  rw [mem_includeFold_fst, mem_excludeFold]

/-- A recorded rename of the customization maps a canonical name to an
alias registered for it. -/
theorem rename_mem_canonical {env : ToolEnv} {reg : AliasRegistry}
    {base : List String} {mc : ModeConfig} {mi : Option ModelInfo}
    {k v : String}
    (h : (k, v) ∈ (applyModelToolCustomization env reg base mc mi).aliasRenames) :
    reg.ALIAS_TO_CANONICAL.lookup v = some k ∧ v ≠ k := by
  cases mi with
  | none => cases h
  | some mi =>
    have hm : (k, v) ∈ ((mi.includedTools.getD []).foldl
        (includeStep reg (buildToolToGroup env) (mc.groups.map GroupEntry.entryName))
        ((mi.excludedTools.getD []).foldl
          (fun s tool => s.filter (fun y => y != resolveToolAlias reg tool)) base,
         [])).2 := h
    rcases mem_includeFold_snd _ _ _ hm with hnil | ⟨hres, hne⟩
    · cases hnil
    · have hres' : resolveToolAlias reg v = k := hres
      have hne' : v ≠ k := hne
      refine ⟨?_, hne'⟩
      unfold resolveToolAlias at hres'
      cases hl : reg.ALIAS_TO_CANONICAL.lookup v with
      | none =>
        rw [hl] at hres'
        simp at hres'
        exact absurd hres' hne'
      | some c =>
        rw [hl] at hres'
        simp at hres'
        rw [hres']

/-- A successful lookup in the rename map of the customization yields an
alias registered for the looked-up canonical name. -/
theorem rename_lookup_canonical {env : ToolEnv} {reg : AliasRegistry}
    {base : List String} {mc : ModeConfig} {mi : Option ModelInfo} {n v : String}
    (h : (applyModelToolCustomization env reg base mc mi).aliasRenames.lookup n
      = some v) : reg.ALIAS_TO_CANONICAL.lookup v = some n ∧ v ≠ n :=
  rename_mem_canonical (lookup_mem h)

/-- Membership in the mode base set. -/
theorem mem_baseAllowedTools {env : ToolEnv} {mode : Option String}
    {cm : Option (List ModeConfig)} {exps : Experiments} {x : String} :
    x ∈ baseAllowedTools env mode cm exps ↔
      x ∈ getToolsForMode env
          (resolveModeOrDefault env (mode.getD env.defaultModeSlug) cm).groups
      ∧ isToolAllowedForMode env x (mode.getD env.defaultModeSlug)
          (cm.getD []) exps = true := by
  unfold baseAllowedTools
  rw [List.mem_filter]

/-- What a successful emission yields: the candidate is function-style, its
name is allowed, and the output is either the alias-renamed clone or the
candidate itself. -/
theorem emitTool_eq_some_iff {rn : List (String × String)} {al : List String}
    {t e : ChatCompletionTool} :
    emitTool rn al t = some e ↔ ∃ fn, t.function = some fn ∧ fn.name ∈ al ∧
      ((∃ a, rn.lookup fn.name = some a ∧
          e = { t with function := some { fn with name := a } })
       ∨ (rn.lookup fn.name = none ∧ e = t)) := by
  cases hf : t.function with
  | none =>
    simp only [emitTool, hf]
    simp [hf]
  | some fn =>
    simp only [emitTool, hf, Option.some.injEq]
    by_cases hm : fn.name ∈ al
    · rw [if_pos hm]
      cases hr : rn.lookup fn.name with
      | none =>
        simp only [Option.some.injEq]
        constructor
        · intro he
          exact ⟨fn, rfl, hm, Or.inr ⟨hr, he.symm⟩⟩
        · rintro ⟨fn', hfn', _, ⟨a, ha, _⟩ | ⟨_, he⟩⟩
          · cases hfn'
            rw [ha] at hr
            cases hr
          · exact he.symm
      | some a =>
        simp only [Option.some.injEq]
        constructor
        · intro he
          exact ⟨fn, rfl, hm, Or.inl ⟨a, hr, he.symm⟩⟩
        · rintro ⟨fn', hfn', _, ⟨a', ha', he⟩ | ⟨hr', _⟩⟩
          · cases hfn'
            rw [ha'] at hr
            cases hr
            exact he.symm
          · cases hfn'
            rw [hr'] at hr
            cases hr
    · rw [if_neg hm]
      constructor
      · intro he
        cases he
      · rintro ⟨fn', hfn', hm', _⟩
        cases hfn'
        exact absurd hm' hm

/-- Emission keeps the candidate entry itself when no rename is recorded
for its name. -/
theorem emitTool_self {rn : List (String × String)} {al : List String}
    {t : ChatCompletionTool} {fn : ToolFunction} (hf : t.function = some fn)
    (hm : fn.name ∈ al) (hr : rn.lookup fn.name = none) :
    emitTool rn al t = some t := by
  simp only [emitTool, hf]
  rw [if_pos hm]
  simp only [hr]

/-- Emission renames the candidate entry when a rename is recorded. -/
theorem emitTool_rename {rn : List (String × String)} {al : List String}
    {t : ChatCompletionTool} {fn : ToolFunction} {a : String}
    (hf : t.function = some fn) (hm : fn.name ∈ al) (hr : rn.lookup fn.name = some a) :
    emitTool rn al t = some { t with function := some { fn with name := a } } := by
  simp only [emitTool, hf]
  rw [if_pos hm]
  simp only [hr]

/-- First projection of the pre-emission computation. -/
theorem computeAllowedSet_fst {env : ToolEnv} {reg : AliasRegistry} {mode : Option String}
    {cm : Option (List ModeConfig)} {exps : Experiments} {mgr : Option CodeIndexManager}
    {st : Settings} {hub : Option McpHub} :
    (computeAllowedSet env reg mode cm exps mgr st hub).1 =
      applyGates exps mgr st hub
        (applyToolAliases reg (customizationResult env reg mode cm exps st).allowedTools) :=
  rfl

/-- Second projection of the pre-emission computation. -/
theorem computeAllowedSet_snd {env : ToolEnv} {reg : AliasRegistry} {mode : Option String}
    {cm : Option (List ModeConfig)} {exps : Experiments} {mgr : Option CodeIndexManager}
    {st : Settings} {hub : Option McpHub} :
    (computeAllowedSet env reg mode cm exps mgr st hub).2 =
      (customizationResult env reg mode cm exps st).aliasRenames :=
  rfl

/-- A non-function candidate is never emitted. -/
theorem emitTool_none {rn : List (String × String)} {al : List String}
    {t : ChatCompletionTool} (h : t.function = none) : emitTool rn al t = none := by
  simp only [emitTool, h]

/-- Filtering out elements the map drops anyway does not change a
filterMap. -/
theorem filterMap_filter_none {α β : Type} (f : α → Option β) (p : α → Bool)
    (hf : ∀ a, p a = false → f a = none) :
    ∀ l : List α, (l.filter p).filterMap f = l.filterMap f := by
  intro l
  induction l with
  | nil => rfl
  | cons a rest ih =>
    cases hp : p a with
    | true =>
      rw [List.filter_cons_of_pos hp]
      cases hfa : f a with
      | none => rw [List.filterMap_cons_none hfa, List.filterMap_cons_none hfa, ih]
      | some b => rw [List.filterMap_cons_some hfa, List.filterMap_cons_some hfa, ih]
    | false =>
      rw [List.filter_cons_of_neg (by simp [hp]), List.filterMap_cons_none (hf a hp), ih]

/-- Claim C2, counterexample: the canonical tool search_and_replace is in
the customized set handed to applyToolAliases and has the registered alias
search_replace_alias, yet that alias is not a member of the resulting set:
the pass canonicalizes instead of widening to alias siblings. -/
theorem c2_counterexample :
    "search_and_replace" ∈ applyToolAliases specRegistry ["search_and_replace"]
    ∧ specRegistry.TOOL_ALIASES.lookup "search_and_replace" = some ["search_replace_alias"]
    ∧ "search_replace_alias" ∉ applyToolAliases specRegistry ["search_and_replace"] := by
  decide

/-- Claim C2, amended: applyToolAliases maps every member of the input set
to its canonical name; its output is exactly the set of canonical names of
input members, so registered aliases of an allowed canonical tool are not
added by this step. -/
theorem c2_applyToolAliases_canonicalizes (reg : AliasRegistry) (l : List String)
    (x : String) :
    x ∈ applyToolAliases reg l ↔ ∃ t ∈ l, resolveToolAlias reg t = x :=
  mem_applyToolAliases

/-- Claim C3 (confirmed): when the diff setting is disabled, no entry of
the filterNativeToolsForMode output is the diff-apply tool, regardless of
model customization: the gate runs after customization and alias expansion
and removes the canonical name, and rename targets are registered aliases,
which apply_diff is not. -/
theorem c3_diff_gate_unconditional (env : ToolEnv) (reg : AliasRegistry)
    (nativeTools : List ChatCompletionTool) (mode : Option String)
    (cm : Option (List ModeConfig)) (exps : Experiments)
    (mgr : Option CodeIndexManager) (st : Settings) (hub : Option McpHub)
    (hdiff : st.diffEnabled = some false)
    (hna : reg.ALIAS_TO_CANONICAL.lookup "apply_diff" = none) :
    ∀ e ∈ filterNativeToolsForMode env reg nativeTools mode cm exps mgr st hub,
      ∀ fnE, e.function = some fnE → fnE.name ≠ "apply_diff" := by
  intro e he fnE hfe hcontra
  unfold filterNativeToolsForMode at he
  rw [List.mem_filterMap] at he
  obtain ⟨t, ht, hemit⟩ := he
  rw [emitTool_eq_some_iff] at hemit
  obtain ⟨fn, hfn, hmem, hcase⟩ := hemit
  rcases hcase with ⟨a, ha, hea⟩ | ⟨hrn, het⟩
  · rw [hea] at hfe
    have hfe' : some { fn with name := a } = some fnE := hfe
    cases hfe'
    rw [computeAllowedSet_snd] at ha
    unfold customizationResult at ha
    have hcan := (rename_lookup_canonical ha).1
    have ha' : a = "apply_diff" := hcontra
    rw [ha'] at hcan
    rw [hna] at hcan
    cases hcan
  · rw [het] at hfe
    rw [hfn] at hfe
    cases hfe
    rw [computeAllowedSet_fst] at hmem
    rw [mem_applyGates] at hmem
    exact hmem.2.2.2.2.2.2.1 hcontra hdiff

/-- Witness for C3 at a concrete input: with the diff setting disabled the
surviving read_file entry is not apply_diff. -/
theorem c3_witness : ("read_file" : String) ≠ "apply_diff" :=
  c3_diff_gate_unconditional specEnv specRegistry
    [⟨"function", some ⟨"read_file", "d"⟩⟩, ⟨"function", some ⟨"apply_diff", "d"⟩⟩]
    (some "code") none ⟨none, none⟩ none ⟨none, none, none, some false⟩ none
    rfl (by decide)
    ⟨"function", some ⟨"read_file", "d"⟩⟩ (by decide) ⟨"read_file", "d"⟩ rfl

/-- Claim C4 (confirmed): a model includedTools entry whose resolved
canonical tool belongs to a group the mode does not permit is never added
by applyModelToolCustomization: any such tool in the customized set was
already in the base set. -/
theorem c4_group_containment (env : ToolEnv) (reg : AliasRegistry)
    (base : List String) (modeConfig : ModeConfig) (modelInfo : Option ModelInfo)
    (c g : String)
    (hg : (buildToolToGroup env).lookup c = some g)
    (hng : g ∉ modeConfig.groups.map GroupEntry.entryName)
    (hmem : c ∈ (applyModelToolCustomization env reg base modeConfig
      modelInfo).allowedTools) :
    c ∈ base := by
  cases modelInfo with
  | none => exact hmem
  | some mi =>
    rw [mem_customization_some] at hmem
    rcases hmem with ⟨hb, _⟩ | ⟨t, ht, hrt, g', hg', hga'⟩
    · exact hb
    · rw [hg] at hg'
      cases hg'
      exact absurd hga' hng

/-- Witness for C4 at a concrete input: a read-only mode with apply_diff
included by the model; the tool is in the result only because it was in the
base set. -/
theorem c4_witness : ("apply_diff" : String) ∈ ["apply_diff"] :=
  c4_group_containment specEnv specRegistry ["apply_diff"]
    ⟨"ask", [GroupEntry.simple "read"]⟩ (some ⟨none, some ["apply_diff"]⟩)
    "apply_diff" "edit" (by decide) (by decide) (by decide)

/-- Claim C6 (confirmed): a tool resolving to the same canonical name from
both excludedTools and includedTools ends up included when its group is
permitted (includes run after excludes), and membership in the customized
set is invariant under permuting the excludedTools list and the
includedTools list. -/
theorem c6_exclude_include_order (env : ToolEnv) (reg : AliasRegistry)
    (base : List String) (mc : ModeConfig) :
    (∀ (excl incl : List String) (e i c g : String),
      e ∈ excl → i ∈ incl → resolveToolAlias reg e = c → resolveToolAlias reg i = c →
      (buildToolToGroup env).lookup c = some g →
      g ∈ mc.groups.map GroupEntry.entryName →
      c ∈ (applyModelToolCustomization env reg base mc
            (some ⟨some excl, some incl⟩)).allowedTools)
    ∧ (∀ (excl incl excl' incl' : List String) (x : String),
      excl.Perm excl' → incl.Perm incl' →
      (x ∈ (applyModelToolCustomization env reg base mc
              (some ⟨some excl, some incl⟩)).allowedTools ↔
       x ∈ (applyModelToolCustomization env reg base mc
              (some ⟨some excl', some incl'⟩)).allowedTools)) := by
  constructor
  · intro excl incl e i c g he hi hre hri hg hga
    rw [mem_customization_some]
    right
    exact ⟨i, hi, hri, g, hg, hga⟩
  · intro excl incl excl' incl' x hpe hpi
    rw [mem_customization_some, mem_customization_some]
    constructor
    · rintro (⟨hx, hall⟩ | ⟨t, ht, hrest⟩)
      · exact Or.inl ⟨hx, fun t ht' => hall t (hpe.mem_iff.mpr ht')⟩
      · exact Or.inr ⟨t, hpi.mem_iff.mp ht, hrest⟩
    · rintro (⟨hx, hall⟩ | ⟨t, ht, hrest⟩)
      · exact Or.inl ⟨hx, fun t ht' => hall t (hpe.mem_iff.mp ht')⟩
      · exact Or.inr ⟨t, hpi.mem_iff.mpr ht, hrest⟩

/-- Witness for C6 at concrete inputs: apply_diff excluded and included in
an edit-permitting mode ends up included, and a permuted exclusion list
yields the same membership. -/
theorem c6_witness :
    "apply_diff" ∈ (applyModelToolCustomization specEnv specRegistry []
        ⟨"m", [GroupEntry.simple "edit"]⟩
        (some ⟨some ["apply_diff"], some ["apply_diff"]⟩)).allowedTools
    ∧ ("read_file" ∈ (applyModelToolCustomization specEnv specRegistry ["read_file"]
          ⟨"m", [GroupEntry.simple "edit"]⟩
          (some ⟨some ["a", "b"], some []⟩)).allowedTools ↔
       "read_file" ∈ (applyModelToolCustomization specEnv specRegistry ["read_file"]
          ⟨"m", [GroupEntry.simple "edit"]⟩
          (some ⟨some ["b", "a"], some []⟩)).allowedTools) :=
  ⟨(c6_exclude_include_order specEnv specRegistry [] ⟨"m", [GroupEntry.simple "edit"]⟩).1
      ["apply_diff"] ["apply_diff"] "apply_diff" "apply_diff" "apply_diff" "edit"
      (by decide) (by decide) (by decide) (by decide) (by decide) (by decide),
   (c6_exclude_include_order specEnv specRegistry ["read_file"]
      ⟨"m", [GroupEntry.simple "edit"]⟩).2
      ["a", "b"] [] ["b", "a"] [] "read_file" (by decide) (by decide)⟩

/-- Claim C8 (confirmed): registerToolAliases reports an error exactly when
some alias of the list is already in the reverse alias map, is a canonical
key of the alias map, or collides with a tool name of the group catalog;
and an erroring call leaves the registry untouched, since every alias is
validated before any is recorded. -/
theorem c8_register_error_iff (env : ToolEnv) (reg : AliasRegistry)
    (toolName : String) (aliases : List String) :
    ((registerToolAliases env reg toolName aliases).2.isSome = true ↔
      ∃ a ∈ aliases,
        (reg.ALIAS_TO_CANONICAL.lookup a).isSome = true ∨
        (reg.TOOL_ALIASES.lookup a).isSome = true ∨
        a ∈ getAllToolNames env)
    ∧ ((registerToolAliases env reg toolName aliases).1 = reg ∨
       (registerToolAliases env reg toolName aliases).2 = none) := by
  have hconf : ∀ a, aliasConflict env reg a = true ↔
      ((reg.ALIAS_TO_CANONICAL.lookup a).isSome = true ∨
       (reg.TOOL_ALIASES.lookup a).isSome = true ∨ a ∈ getAllToolNames env) := by
    intro a
    simp [aliasConflict]
    tauto
  by_cases he : aliases.isEmpty = true
  · have hnil : aliases = [] := by
      cases aliases
      · rfl
      · simp [List.isEmpty] at he
    subst hnil
    constructor
    · simp [registerToolAliases]
    · right
      simp [registerToolAliases]
  · cases hf : aliases.find? (aliasConflict env reg) with
    | some a =>
      have hp := List.find?_some hf
      have hm := List.mem_of_find?_eq_some hf
      have h2 : (registerToolAliases env reg toolName aliases).2.isSome = true := by
        rw [registerToolAliases, if_neg he, hf]
        rfl
      have h1 : (registerToolAliases env reg toolName aliases).1 = reg := by
        rw [registerToolAliases, if_neg he, hf]
      exact ⟨⟨fun _ => ⟨a, hm, (hconf a).mp hp⟩, fun _ => h2⟩, Or.inl h1⟩
    | none =>
      have h2 : (registerToolAliases env reg toolName aliases).2 = none := by
        rw [registerToolAliases, if_neg he, hf]
      refine ⟨?_, Or.inr h2⟩
      rw [h2]
      simp only [Option.isSome_none, Bool.false_eq_true, false_iff]
      rintro ⟨a, ham, hcond⟩
      have : aliasConflict env reg a = true := (hconf a).mpr hcond
      have hnone := List.find?_eq_none.mp hf a ham
      exact hnone this

/-- Claim C10 (confirmed): candidates without a function definition are
silently dropped: the output equals the output on the function-style
candidates alone, and every emitted entry is function-style. -/
theorem c10_non_function_dropped (env : ToolEnv) (reg : AliasRegistry)
    (nt : List ChatCompletionTool) (mode : Option String)
    (cm : Option (List ModeConfig)) (exps : Experiments)
    (mgr : Option CodeIndexManager) (st : Settings) (hub : Option McpHub) :
    filterNativeToolsForMode env reg nt mode cm exps mgr st hub =
      filterNativeToolsForMode env reg (nt.filter (fun t => t.function.isSome))
        mode cm exps mgr st hub
    ∧ (filterNativeToolsForMode env reg nt mode cm exps mgr st hub).all
        (fun e => e.function.isSome) = true := by
  constructor
  · unfold filterNativeToolsForMode
    refine (filterMap_filter_none _ _ ?_ nt).symm
    intro t hp
    refine emitTool_none ?_
    cases hft : t.function with
    | none => rfl
    | some fn =>
      rw [hft] at hp
      cases hp
  · rw [List.all_eq_true]
    intro e he
    unfold filterNativeToolsForMode at he
    rw [List.mem_filterMap] at he
    obtain ⟨t, ht, hemit⟩ := he
    rw [emitTool_eq_some_iff] at hemit
    obtain ⟨fn, hfn, hmem, hcase⟩ := hemit
    rcases hcase with ⟨a, ha, hea⟩ | ⟨hrn, het⟩
    · rw [hea]
      rfl
    · rw [het, hfn]
      rfl

/-- Claim C7 (confirmed): for a registered alias and its canonical tool,
neither always-available nor the browser tool (as holds for every pair of
the built registry), isToolAllowedInMode agrees on all policy inputs: both
names reduce to the same alias-group query against the mode predicate. -/
theorem c7_alias_symmetry (env : ToolEnv) (reg : AliasRegistry) (a c : String)
    (als : List String)
    (h1 : reg.TOOL_ALIASES.lookup a = none)
    (h2 : reg.ALIAS_TO_CANONICAL.lookup a = some c)
    (h3 : reg.TOOL_ALIASES.lookup c = some als)
    (ha1 : a ∉ env.ALWAYS_AVAILABLE_TOOLS) (ha2 : a ≠ "browser_action")
    (hc1 : c ∉ env.ALWAYS_AVAILABLE_TOOLS) (hc2 : c ≠ "browser_action")
    (mode : Option String) (cm : Option (List ModeConfig)) (exps : Experiments)
    (mgr : Option CodeIndexManager) (st : Settings) :
    isToolAllowedInMode env reg a mode cm exps mgr st =
      isToolAllowedInMode env reg c mode cm exps mgr st := by
  have hga : getToolAliasGroup reg a = c :: als := by
    simp only [getToolAliasGroup, h1, h2, h3, Option.getD_some]
  have hgc : getToolAliasGroup reg c = c :: als := by
    simp only [getToolAliasGroup, h3]
  unfold isToolAllowedInMode
  rw [if_neg ha1, if_neg hc1,
    if_neg (fun h => ha2 h.1), if_neg (fun h => hc2 h.1), hga, hgc]

/-- Witness for C7 at a concrete input: the registered alias and its
canonical tool agree in a read-only mode. -/
theorem c7_witness :
    isToolAllowedInMode specEnv specRegistry "search_replace_alias" (some "ask") none
      ⟨none, none⟩ none ⟨none, none, none, none⟩ =
    isToolAllowedInMode specEnv specRegistry "search_and_replace" (some "ask") none
      ⟨none, none⟩ none ⟨none, none, none, none⟩ :=
  c7_alias_symmetry specEnv specRegistry "search_replace_alias" "search_and_replace"
    ["search_replace_alias"] (by decide) (by decide) (by decide) (by decide)
    (by decide) (by decide) (by decide) (some "ask") none ⟨none, none⟩ none
    ⟨none, none, none, none⟩

/-- getModeBySlug only reads the custom-mode list through its default. -/
theorem getModeBySlug_getD {env : ToolEnv} {s : String} {cm : Option (List ModeConfig)} :
    getModeBySlug env s (some (cm.getD [])) = getModeBySlug env s cm := by
  cases cm <;> rfl

/-- An unknown slug resolves to the same configuration as the default
slug. -/
theorem resolveModeOrDefault_unknown {env : ToolEnv} {u : String}
    {cm : Option (List ModeConfig)} (hu : getModeBySlug env u cm = none) :
    resolveModeOrDefault env u cm = resolveModeOrDefault env env.defaultModeSlug cm := by
  unfold resolveModeOrDefault
  rw [hu]
  cases h : getModeBySlug env env.defaultModeSlug cm with
  | none => simp [h]
  | some m => simp [h]

/-- The mode predicate treats an unknown slug as the default slug. -/
theorem isToolAllowedForMode_unknown {env : ToolEnv} {t u : String}
    {l : List ModeConfig} {exps : Experiments}
    (hl : getModeBySlug env u (some l) = none) :
    isToolAllowedForMode env t u l exps =
      isToolAllowedForMode env t env.defaultModeSlug l exps := by
  unfold isToolAllowedForMode
  by_cases hT : t ∈ env.ALWAYS_AVAILABLE_TOOLS
  · rw [if_pos hT, if_pos hT]
  · rw [if_neg hT, if_neg hT, resolveModeOrDefault_unknown hl]

/-- Claim C9 (confirmed): mode resolution never fails: an unknown slug and
an undefined mode argument both make filterNativeToolsForMode behave
exactly as a request for the default slug. -/
theorem c9_unknown_mode_fallback (env : ToolEnv) (reg : AliasRegistry)
    (nt : List ChatCompletionTool) (cm : Option (List ModeConfig))
    (exps : Experiments) (mgr : Option CodeIndexManager) (st : Settings)
    (hub : Option McpHub) (u : String)
    (hu : getModeBySlug env u cm = none) :
    filterNativeToolsForMode env reg nt (some u) cm exps mgr st hub =
      filterNativeToolsForMode env reg nt (some env.defaultModeSlug) cm exps mgr st hub
    ∧ filterNativeToolsForMode env reg nt none cm exps mgr st hub =
      filterNativeToolsForMode env reg nt (some env.defaultModeSlug) cm exps mgr st hub := by
  have hu' : getModeBySlug env u (some (cm.getD [])) = none := by
    rw [getModeBySlug_getD]
    exact hu
  have hbase : baseAllowedTools env (some u) cm exps =
      baseAllowedTools env (some env.defaultModeSlug) cm exps := by
    unfold baseAllowedTools
    simp only [Option.getD_some]
    rw [resolveModeOrDefault_unknown hu]
    congr 1
    funext tool
    exact isToolAllowedForMode_unknown hu'
  have hcust : customizationResult env reg (some u) cm exps st =
      customizationResult env reg (some env.defaultModeSlug) cm exps st := by
    unfold customizationResult
    simp only [Option.getD_some]
    rw [resolveModeOrDefault_unknown hu]
    rw [show baseAllowedTools env (some u) cm exps =
        baseAllowedTools env (some env.defaultModeSlug) cm exps from hbase]
  have hcas : computeAllowedSet env reg (some u) cm exps mgr st hub =
      computeAllowedSet env reg (some env.defaultModeSlug) cm exps mgr st hub := by
    unfold computeAllowedSet
    rw [hcust]
  constructor
  · unfold filterNativeToolsForMode
    rw [hcas]
  · rfl

/-- Witness for C9 at a concrete input: a nonexistent slug yields the same
output as the default slug, as does an absent mode argument. -/
theorem c9_witness :
    filterNativeToolsForMode specEnv specRegistry
        [⟨"function", some ⟨"read_file", "d"⟩⟩] (some "nonexistent-slug") none
        ⟨none, none⟩ none ⟨none, none, none, none⟩ none =
      filterNativeToolsForMode specEnv specRegistry
        [⟨"function", some ⟨"read_file", "d"⟩⟩] (some "code") none
        ⟨none, none⟩ none ⟨none, none, none, none⟩ none
    ∧ filterNativeToolsForMode specEnv specRegistry
        [⟨"function", some ⟨"read_file", "d"⟩⟩] none none
        ⟨none, none⟩ none ⟨none, none, none, none⟩ none =
      filterNativeToolsForMode specEnv specRegistry
        [⟨"function", some ⟨"read_file", "d"⟩⟩] (some "code") none
        ⟨none, none⟩ none ⟨none, none, none, none⟩ none :=
  c9_unknown_mode_fallback specEnv specRegistry
    [⟨"function", some ⟨"read_file", "d"⟩⟩] none ⟨none, none⟩ none
    ⟨none, none, none, none⟩ none "nonexistent-slug" (by decide)

/-- Association lookup skips an entry with a different key. -/
theorem lookup_cons_ne {α β : Type} [BEq α] [LawfulBEq α] {k a : α} {v : β}
    {m : List (α × β)} (h : a ≠ k) : ((k, v) :: m).lookup a = m.lookup a := by
  rw [List.lookup, show (a == k) = false from beq_eq_false_iff_ne.mpr h]

/-- Association lookup finds the freshly consed entry. -/
theorem lookup_cons_self {α β : Type} [BEq α] [LawfulBEq α] {k : α} {v : β}
    {m : List (α × β)} : ((k, v) :: m).lookup k = some v := by
  rw [List.lookup, show (k == k) = true from beq_self_eq_true k]

/-- The rename component after one includedTools step is either untouched
or extended by the pair for the processed alias. -/
theorem includeStep_snd_cases {reg : AliasRegistry} {ttg : List (String × String)}
    {ag : List String} {acc : List String × List (String × String)} {t : String} :
    (includeStep reg ttg ag acc t).2 = acc.2 ∨
      ((includeStep reg ttg ag acc t).2 = (resolveToolAlias reg t, t) :: acc.2 ∧
        t ≠ resolveToolAlias reg t) := by
  unfold includeStep
  split
  · split
    · split
      · rename_i hne
        exact Or.inr ⟨rfl, hne⟩
      · exact Or.inl rfl
    · exact Or.inl rfl
  · exact Or.inl rfl

/-- Once the rename map answers a for c and no remaining entry is a
different alias of c, the answer stays a through the rest of the fold. -/
theorem includeFold_lookup_stable {reg : AliasRegistry} {ttg : List (String × String)}
    {ag : List String} {c a : String} :
    ∀ (l : List String) (acc : List String × List (String × String)),
      acc.2.lookup c = some a →
      (∀ b ∈ l, resolveToolAlias reg b = c → b ≠ c → b = a) →
      ((l.foldl (includeStep reg ttg ag) acc).2.lookup c = some a) := by
  intro l
  induction l with
  | nil =>
    intro acc hacc _
    exact hacc
  | cons b rest ih =>
    intro acc hacc hcond
    rw [List.foldl_cons]
    refine ih _ ?_ (fun b' hb' => hcond b' (List.mem_cons_of_mem _ hb'))
    rcases @includeStep_snd_cases reg ttg ag acc b with heq | ⟨heq, hne⟩
    · rw [heq]
      exact hacc
    · rw [heq]
      by_cases hbc : resolveToolAlias reg b = c
      · have hbne : b ≠ c := fun hb => hne (hb.trans hbc.symm)
        have hba : b = a := hcond b (List.mem_cons_self _ _) hbc hbne
        rw [hbc, hba, lookup_cons_self]
      · rw [lookup_cons_ne (fun hc => hbc hc.symm)]
        exact hacc

/-- When the includedTools list contains the alias a of c, the mode permits
c's group, and every other entry resolving to c as an alias equals a, the
rename fold answers a for c. -/
theorem includeFold_lookup_found {reg : AliasRegistry} {ttg : List (String × String)}
    {ag : List String} {c a g : String}
    (hra : resolveToolAlias reg a = c) (hac : a ≠ c)
    (hg : ttg.lookup c = some g) (hga : g ∈ ag) :
    ∀ (l : List String) (acc : List String × List (String × String)),
      a ∈ l →
      (∀ b ∈ l, resolveToolAlias reg b = c → b ≠ c → b = a) →
      (acc.2.lookup c = none ∨ acc.2.lookup c = some a) →
      ((l.foldl (includeStep reg ttg ag) acc).2.lookup c = some a) := by
  intro l
  induction l with
  | nil =>
    intro acc ha _ _
    cases ha
  | cons b rest ih =>
    intro acc hal hcond hacc
    rw [List.foldl_cons]
    by_cases hba : b = a
    · subst hba
      have hstep : (includeStep reg ttg ag acc b).2 = (c, b) :: acc.2 := by
        unfold includeStep
        rw [hra, hg]
        show (if g ∈ ag then
            (addTool acc.1 c, if b ≠ c then (c, b) :: acc.2 else acc.2)
          else acc).2 = (c, b) :: acc.2
        rw [if_pos hga, if_pos hac]
      refine includeFold_lookup_stable rest _ ?_
        (fun b' hb' => hcond b' (List.mem_cons_of_mem _ hb'))
      rw [hstep, lookup_cons_self]
    · have har : a ∈ rest := by
        rcases List.mem_cons.mp hal with hb | hr
        · exact absurd hb.symm hba
        · exact hr
      refine ih _ har (fun b' hb' => hcond b' (List.mem_cons_of_mem _ hb')) ?_
      rcases @includeStep_snd_cases reg ttg ag acc b with heq | ⟨heq, hne⟩
      · rw [heq]
        exact hacc
      · rw [heq]
        by_cases hbc : resolveToolAlias reg b = c
        · have hbne : b ≠ c := fun hb => hne (hb.trans hbc.symm)
          exact absurd (hcond b (List.mem_cons_self _ _) hbc hbne) hba
        · rw [lookup_cons_ne (fun hc => hbc hc.symm)]
          exact hacc

/-- The rename map of the customization answers the alias a for the
canonical c under the uniqueness condition on the includedTools list. -/
theorem customization_rename_lookup {env : ToolEnv} {reg : AliasRegistry}
    {base : List String} {mc : ModeConfig} {mi : ModelInfo} {a c g : String}
    (ha : a ∈ mi.includedTools.getD [])
    (hra : resolveToolAlias reg a = c) (hac : a ≠ c)
    (hg : (buildToolToGroup env).lookup c = some g)
    (hga : g ∈ mc.groups.map GroupEntry.entryName)
    (huniq : ∀ b ∈ mi.includedTools.getD [],
      resolveToolAlias reg b = c → b ≠ c → b = a) :
    (applyModelToolCustomization env reg base mc (some mi)).aliasRenames.lookup c
      = some a := by
  show ((mi.includedTools.getD []).foldl
      (includeStep reg (buildToolToGroup env) (mc.groups.map GroupEntry.entryName))
      ((mi.excludedTools.getD []).foldl
        (fun s tool => s.filter (fun y => y != resolveToolAlias reg tool)) base,
       [])).2.lookup c = some a
  exact includeFold_lookup_found hra hac hg hga _ _ ha huniq (Or.inl rfl)

/-- Claim C5 (confirmed): when the model includes a tool by an alias whose
canonical tool's group the mode permits, the alias being the only entry
resolving to that canonical as an alias, the canonical tool being neither a
registered alias itself nor a feature-gated name, and the candidate list
defining the canonical tool, the output contains an entry presented under
the alias name and no entry presented under the canonical name. -/
theorem c5_alias_rename_presentation (env : ToolEnv) (reg : AliasRegistry)
    (nativeTools : List ChatCompletionTool) (mode : Option String)
    (cm : Option (List ModeConfig)) (exps : Experiments)
    (mgr : Option CodeIndexManager) (st : Settings) (hub : Option McpHub)
    (mi : ModelInfo) (a c g : String) (cd : ChatCompletionTool) (fn : ToolFunction)
    (hmi : st.modelInfo = some mi)
    (ha : a ∈ mi.includedTools.getD [])
    (hra : resolveToolAlias reg a = c) (hac : a ≠ c)
    (hg : (buildToolToGroup env).lookup c = some g)
    (hga : g ∈ (resolveModeOrDefault env (mode.getD env.defaultModeSlug) cm).groups.map
      GroupEntry.entryName)
    (huniq : ∀ b ∈ mi.includedTools.getD [],
      resolveToolAlias reg b = c → b ≠ c → b = a)
    (hcna : reg.ALIAS_TO_CANONICAL.lookup c = none)
    (hgate : c ∉ ["codebase_search", "update_todo_list", "generate_image",
      "run_slash_command", "browser_action", "apply_diff", "access_mcp_resource"])
    (hcd : cd ∈ nativeTools) (hfn : cd.function = some fn) (hname : fn.name = c) :
    (∃ e ∈ filterNativeToolsForMode env reg nativeTools mode cm exps mgr st hub,
      ∃ fnE, e.function = some fnE ∧ fnE.name = a)
    ∧ ∀ e ∈ filterNativeToolsForMode env reg nativeTools mode cm exps mgr st hub,
      ∀ fnE, e.function = some fnE → fnE.name ≠ c := by
  have hlookup : (computeAllowedSet env reg mode cm exps mgr st hub).2.lookup c
      = some a := by
    rw [computeAllowedSet_snd]
    unfold customizationResult
    rw [hmi]
    exact customization_rename_lookup ha hra hac hg hga huniq
  simp only [List.mem_cons, not_or] at hgate
  have hmemc : c ∈ (computeAllowedSet env reg mode cm exps mgr st hub).1 := by
    rw [computeAllowedSet_fst, mem_applyGates]
    refine ⟨?_, fun h => absurd h hgate.1, fun h => absurd h hgate.2.1,
      fun h => absurd h hgate.2.2.1, fun h => absurd h hgate.2.2.2.1,
      fun h => absurd h hgate.2.2.2.2.1, fun h => absurd h hgate.2.2.2.2.2.1,
      fun h => absurd h hgate.2.2.2.2.2.2.1⟩
    rw [mem_applyToolAliases]
    refine ⟨c, ?_, ?_⟩
    · unfold customizationResult
      rw [hmi, mem_customization_some]
      exact Or.inr ⟨a, ha, hra, g, hg, hga⟩
    · unfold resolveToolAlias
      rw [hcna]
      rfl
  constructor
  · refine ⟨{ cd with function := some { fn with name := a } }, ?_,
      { fn with name := a }, rfl, rfl⟩
    unfold filterNativeToolsForMode
    rw [List.mem_filterMap]
    refine ⟨cd, hcd, ?_⟩
    refine emitTool_rename hfn ?_ ?_
    · rw [hname]
      exact hmemc
    · rw [hname]
      exact hlookup
  · intro e he fnE hfe hceq
    unfold filterNativeToolsForMode at he
    rw [List.mem_filterMap] at he
    obtain ⟨t, ht, hemit⟩ := he
    rw [emitTool_eq_some_iff] at hemit
    obtain ⟨fn', hfn', hmem', hcase⟩ := hemit
    rcases hcase with ⟨a', ha', hea⟩ | ⟨hrn', het⟩
    · rw [hea] at hfe
      have hfe' : some { fn' with name := a' } = some fnE := hfe
      cases hfe'
      have ha'c : a' = c := hceq
      rw [computeAllowedSet_snd] at ha'
      unfold customizationResult at ha'
      have hcan := (rename_lookup_canonical ha').1
      rw [ha'c, hcna] at hcan
      cases hcan
    · rw [het] at hfe
      rw [hfn'] at hfe
      cases hfe
      rw [hceq] at hrn'
      rw [hlookup] at hrn'
      cases hrn'

/-- Witness for C5 at the spec's concrete scenario: search_and_replace is
presented as search_replace_alias, and no entry keeps the canonical name. -/
theorem c5_witness :
    (∃ e ∈ filterNativeToolsForMode specEnv specRegistry
        [⟨"function", some ⟨"search_and_replace", "d"⟩⟩] (some "code") none
        ⟨none, none⟩ none
        ⟨some ⟨some ["apply_diff"], some ["search_replace_alias"]⟩, none, none, none⟩
        none,
      ∃ fnE, e.function = some fnE ∧ fnE.name = "search_replace_alias")
    ∧ ∀ e ∈ filterNativeToolsForMode specEnv specRegistry
        [⟨"function", some ⟨"search_and_replace", "d"⟩⟩] (some "code") none
        ⟨none, none⟩ none
        ⟨some ⟨some ["apply_diff"], some ["search_replace_alias"]⟩, none, none, none⟩
        none,
      ∀ fnE, e.function = some fnE → fnE.name ≠ "search_and_replace" :=
  c5_alias_rename_presentation specEnv specRegistry
    [⟨"function", some ⟨"search_and_replace", "d"⟩⟩] (some "code") none ⟨none, none⟩
    none ⟨some ⟨some ["apply_diff"], some ["search_replace_alias"]⟩, none, none, none⟩
    none ⟨some ["apply_diff"], some ["search_replace_alias"]⟩
    "search_replace_alias" "search_and_replace" "edit"
    ⟨"function", some ⟨"search_and_replace", "d"⟩⟩ ⟨"search_and_replace", "d"⟩
    rfl (by decide) (by decide) (by decide) (by decide) (by decide) (by decide)
    (by decide) (by decide) (by decide) rfl rfl

/-- Claim C1, counterexample: with the diff setting disabled and otherwise
identical inputs (no modelInfo), apply_diff is allowed by the mode yet
absent from the resolver output, while isToolAllowedInMode still answers
true: the resolver's diff gate has no counterpart in the predicate. -/
theorem c1_counterexample :
    filterNativeToolsForMode specEnv specRegistry
        [⟨"function", some ⟨"apply_diff", "d"⟩⟩] (some "code") none ⟨none, none⟩
        none ⟨none, none, none, some false⟩ none = []
    ∧ isToolAllowedInMode specEnv specRegistry "apply_diff" (some "code") none
        ⟨none, none⟩ none ⟨none, none, none, some false⟩ = true := by
  decide

/-- Evaluation of the per-group-entry test of the mode predicate. -/
theorem matchGroup_eq_true_iff {env : ToolEnv} {n : String} {ge : GroupEntry} :
    ((match env.TOOL_GROUPS.lookup ge.entryName with
      | some gc => decide (n ∈ gc.tools)
      | none => false) = true) ↔
      ∃ gc, env.TOOL_GROUPS.lookup ge.entryName = some gc ∧ n ∈ gc.tools := by
  cases h : env.TOOL_GROUPS.lookup ge.entryName <;> simp [h]

/-- The mode predicate for a tool that is not always available: membership
in the tools partition of some permitted group. -/
theorem isToolAllowedForMode_not_always {env : ToolEnv} {n slug : String}
    {cml : List ModeConfig} {exps : Experiments}
    (hA : n ∉ env.ALWAYS_AVAILABLE_TOOLS) :
    isToolAllowedForMode env n slug cml exps = true ↔
      ∃ ge ∈ (resolveModeOrDefault env slug (some cml)).groups,
        ∃ gc, env.TOOL_GROUPS.lookup ge.entryName = some gc ∧ n ∈ gc.tools := by
  unfold isToolAllowedForMode
  rw [if_neg hA, List.any_eq_true]
  simp only [matchGroup_eq_true_iff]

/-- Every tool of a group config found in the spec catalog is a known tool
name. -/
theorem spec_groupTools_sub {gname : String} {gc : GroupConfig}
    (h : specToolGroups.lookup gname = some gc) :
    ∀ t ∈ gc.tools, t ∈ getAllToolNames specEnv := by
  intro t ht
  have hp := lookup_mem h
  have hsnd : gc ∈ specToolGroups.map Prod.snd := List.mem_map_of_mem Prod.snd hp
  simp only [specToolGroups, List.map_cons, List.map_nil, List.mem_cons,
    List.not_mem_nil, or_false] at hsnd
  rcases hsnd with h1 | h1 | h1 | h1 | h1 <;> subst h1 <;> fin_cases ht <;> decide

/-- The spec alias-to-canonical map as a literal. -/
theorem spec_A2C_eq :
    specRegistry.ALIAS_TO_CANONICAL = [("search_replace_alias", "search_and_replace")] := by
  decide

/-- The spec canonical-to-aliases map as a literal. -/
theorem spec_TA_eq :
    specRegistry.TOOL_ALIASES = [("search_and_replace", ["search_replace_alias"])] := by
  decide

/-- No member of a spec mode base tool list is a registered alias: every
base tool resolves to itself. -/
theorem spec_resolve_self {gs : List GroupEntry} {t : String}
    (ht : t ∈ getToolsForMode specEnv gs) :
    resolveToolAlias specRegistry t = t := by
  have hne : t ≠ "search_replace_alias" := by
    rw [mem_getToolsForMode] at ht
    rcases ht with ⟨ge, hge, gc, hgc, htl⟩ | hal
    · have h1 := spec_groupTools_sub hgc t htl
      intro he
      rw [he] at h1
      revert h1
      decide
    · intro he
      rw [he] at hal
      revert hal
      decide
  unfold resolveToolAlias
  rw [spec_A2C_eq, lookup_cons_ne hne]
  rfl

/-- For a non-alias name, the canonicalization step adds or removes nothing
over a spec mode base set. -/
theorem spec_widen_iff {mode : Option String} {cm : Option (List ModeConfig)}
    {exps : Experiments} {n : String}
    (halias : specRegistry.ALIAS_TO_CANONICAL.lookup n = none) :
    (∃ t ∈ baseAllowedTools specEnv mode cm exps,
        resolveToolAlias specRegistry t = n) ↔
      n ∈ baseAllowedTools specEnv mode cm exps := by
  constructor
  · rintro ⟨t, ht, hrt⟩
    have hself := spec_resolve_self (mem_baseAllowedTools.mp ht).1
    rw [hself] at hrt
    rw [← hrt]
    exact ht
  · intro hn
    refine ⟨n, hn, ?_⟩
    unfold resolveToolAlias
    rw [halias]
    rfl

/-- The registered alias name itself never passes the mode predicate: it is
neither always available nor a member of any catalog group. -/
theorem spec_pred_alias_false {slug : String} {cml : List ModeConfig}
    {exps : Experiments} :
    isToolAllowedForMode specEnv "search_replace_alias" slug cml exps = false := by
  cases hb : isToolAllowedForMode specEnv "search_replace_alias" slug cml exps with
  | false => rfl
  | true =>
    rw [isToolAllowedForMode_not_always (by decide)] at hb
    obtain ⟨ge, hge, gc, hgc, htl⟩ := hb
    have h1 := spec_groupTools_sub hgc _ htl
    revert h1
    decide

/-- The alias group of an unregistered name is a singleton. -/
theorem getToolAliasGroup_of_none {reg : AliasRegistry} {n : String}
    (h1 : reg.TOOL_ALIASES.lookup n = none)
    (h2 : reg.ALIAS_TO_CANONICAL.lookup n = none) :
    getToolAliasGroup reg n = [n] := by
  unfold getToolAliasGroup
  rw [h1, h2]

/-- The always-available list of the spec environment as a literal. -/
theorem spec_always_eq :
    specEnv.ALWAYS_AVAILABLE_TOOLS =
      ["ask_followup_question", "attempt_completion", "update_todo_list",
       "codebase_search", "generate_image", "run_slash_command"] := rfl

/-- Negated boolean equality test as a proposition. -/
theorem bnot_beq_iff {α : Type} [BEq α] [LawfulBEq α] (x y : α) :
    ((!(x == y)) = true) ↔ ¬ x = y := by
  simp

/-- Mode resolution reads the optional custom-mode list only through its
default. -/
theorem resolveModeOrDefault_getD {env : ToolEnv} {slug : String}
    {cm : Option (List ModeConfig)} :
    resolveModeOrDefault env slug (some (cm.getD [])) =
      resolveModeOrDefault env slug cm := by
  unfold resolveModeOrDefault
  rw [getModeBySlug_getD, getModeBySlug_getD]

/-- Agreement of the resolver's allowed-name set with the single-tool
predicate over the spec environment, for a name that is not a registered
alias and is neither of the two gated tools the predicate does not
implement, when no modelInfo is supplied. -/
theorem c1_key (mode : Option String) (cm : Option (List ModeConfig))
    (exps : Experiments) (mgr : Option CodeIndexManager) (st : Settings)
    (hub : Option McpHub) (n : String)
    (hmi : st.modelInfo = none)
    (halias : specRegistry.ALIAS_TO_CANONICAL.lookup n = none)
    (hnd : n ≠ "apply_diff") (hnm : n ≠ "access_mcp_resource") :
    (n ∈ (computeAllowedSet specEnv specRegistry mode cm exps mgr st hub).1 ↔
      isToolAllowedInMode specEnv specRegistry n mode cm exps mgr st = true) := by
  have hcust : (customizationResult specEnv specRegistry mode cm exps st).allowedTools
      = baseAllowedTools specEnv mode cm exps := by
    unfold customizationResult
    rw [hmi]
    rfl
  rw [computeAllowedSet_fst, mem_applyGates, mem_applyToolAliases, hcust,
    spec_widen_iff halias, mem_baseAllowedTools]
  by_cases hA : n ∈ specEnv.ALWAYS_AVAILABLE_TOOLS
  · have hT : n ∈ getToolsForMode specEnv
        (resolveModeOrDefault specEnv (mode.getD specEnv.defaultModeSlug) cm).groups :=
      mem_getToolsForMode.mpr (Or.inr hA)
    have hP : isToolAllowedForMode specEnv n (mode.getD specEnv.defaultModeSlug)
        (cm.getD []) exps = true := by
      unfold isToolAllowedForMode
      rw [if_pos hA]
    rw [spec_always_eq] at hA
    simp only [List.mem_cons, List.not_mem_nil, or_false] at hA
    rcases hA with rfl | rfl | rfl | rfl | rfl | rfl
    · constructor
      · intro _
        unfold isToolAllowedInMode
        rw [if_pos (by decide), if_neg (by decide), if_neg (by decide),
          if_neg (by decide), if_neg (by decide)]
      · intro _
        exact ⟨⟨hT, hP⟩, fun h => absurd h (by decide), fun h => absurd h (by decide),
          fun h => absurd h (by decide), fun h => absurd h (by decide),
          fun h => absurd h (by decide), fun h => absurd h (by decide),
          fun h => absurd h (by decide)⟩
    · constructor
      · intro _
        unfold isToolAllowedInMode
        rw [if_pos (by decide), if_neg (by decide), if_neg (by decide),
          if_neg (by decide), if_neg (by decide)]
      · intro _
        exact ⟨⟨hT, hP⟩, fun h => absurd h (by decide), fun h => absurd h (by decide),
          fun h => absurd h (by decide), fun h => absurd h (by decide),
          fun h => absurd h (by decide), fun h => absurd h (by decide),
          fun h => absurd h (by decide)⟩
    · constructor
      · rintro ⟨_, hG⟩
        unfold isToolAllowedInMode
        rw [if_pos (by decide), if_neg (by decide), if_pos rfl]
        exact (bnot_beq_iff _ _).mpr (hG.2.1 rfl)
      · intro hpred
        unfold isToolAllowedInMode at hpred
        rw [if_pos (by decide), if_neg (by decide), if_pos rfl] at hpred
        exact ⟨⟨hT, hP⟩, fun h => absurd h (by decide),
          fun _ => (bnot_beq_iff _ _).mp hpred,
          fun h => absurd h (by decide), fun h => absurd h (by decide),
          fun h => absurd h (by decide), fun h => absurd h (by decide),
          fun h => absurd h (by decide)⟩
    · constructor
      · rintro ⟨_, hG⟩
        unfold isToolAllowedInMode
        rw [if_pos (by decide), if_pos rfl]
        exact hG.1 rfl
      · intro hpred
        unfold isToolAllowedInMode at hpred
        rw [if_pos (by decide), if_pos rfl] at hpred
        exact ⟨⟨hT, hP⟩, fun _ => hpred, fun h => absurd h (by decide),
          fun h => absurd h (by decide), fun h => absurd h (by decide),
          fun h => absurd h (by decide), fun h => absurd h (by decide),
          fun h => absurd h (by decide)⟩
    · constructor
      · rintro ⟨_, hG⟩
        unfold isToolAllowedInMode
        rw [if_pos (by decide), if_neg (by decide), if_neg (by decide), if_pos rfl]
        rw [beq_iff_eq]
        exact hG.2.2.1 rfl
      · intro hpred
        unfold isToolAllowedInMode at hpred
        rw [if_pos (by decide), if_neg (by decide), if_neg (by decide),
          if_pos rfl, beq_iff_eq] at hpred
        exact ⟨⟨hT, hP⟩, fun h => absurd h (by decide), fun h => absurd h (by decide),
          fun _ => hpred, fun h => absurd h (by decide),
          fun h => absurd h (by decide), fun h => absurd h (by decide),
          fun h => absurd h (by decide)⟩
    · constructor
      · rintro ⟨_, hG⟩
        unfold isToolAllowedInMode
        rw [if_pos (by decide), if_neg (by decide), if_neg (by decide),
          if_neg (by decide), if_pos rfl]
        rw [beq_iff_eq]
        exact hG.2.2.2.1 rfl
      · intro hpred
        unfold isToolAllowedInMode at hpred
        rw [if_pos (by decide), if_neg (by decide), if_neg (by decide),
          if_neg (by decide), if_pos rfl, beq_iff_eq] at hpred
        exact ⟨⟨hT, hP⟩, fun h => absurd h (by decide), fun h => absurd h (by decide),
          fun h => absurd h (by decide), fun _ => hpred,
          fun h => absurd h (by decide), fun h => absurd h (by decide),
          fun h => absurd h (by decide)⟩
  · have h4 : n ≠ "codebase_search" := fun he => hA (by rw [he]; decide)
    have h5 : n ≠ "update_todo_list" := fun he => hA (by rw [he]; decide)
    have h6 : n ≠ "generate_image" := fun he => hA (by rw [he]; decide)
    have h7 : n ≠ "run_slash_command" := fun he => hA (by rw [he]; decide)
    have hTiff : n ∈ getToolsForMode specEnv
        (resolveModeOrDefault specEnv (mode.getD specEnv.defaultModeSlug) cm).groups ↔
        ∃ ge ∈ (resolveModeOrDefault specEnv (mode.getD specEnv.defaultModeSlug)
            cm).groups,
          ∃ gc, specEnv.TOOL_GROUPS.lookup ge.entryName = some gc ∧ n ∈ gc.tools := by
      rw [mem_getToolsForMode]
      exact or_iff_left hA
    have hPiff : isToolAllowedForMode specEnv n (mode.getD specEnv.defaultModeSlug)
        (cm.getD []) exps = true ↔
        ∃ ge ∈ (resolveModeOrDefault specEnv (mode.getD specEnv.defaultModeSlug)
            cm).groups,
          ∃ gc, specEnv.TOOL_GROUPS.lookup ge.entryName = some gc ∧ n ∈ gc.tools := by
      rw [isToolAllowedForMode_not_always hA, resolveModeOrDefault_getD]
    rw [hTiff, hPiff, and_self]
    unfold isToolAllowedInMode
    rw [if_neg hA]
    by_cases hB : n = "browser_action"
    · subst hB
      by_cases hbs : st.browserToolEnabled = some false
      · rw [if_pos ⟨rfl, hbs⟩]
        constructor
        · rintro ⟨_, hG⟩
          exact absurd hbs (hG.2.2.2.2.1 rfl)
        · intro h
          exact absurd h (by decide)
      · rw [if_neg (fun hc => hbs hc.2)]
        have hgrp : getToolAliasGroup specRegistry "browser_action" =
            ["browser_action"] := by decide
        rw [hgrp]
        simp only [List.any_cons, List.any_nil, Bool.or_false]
        rw [hPiff]
        constructor
        · rintro ⟨hE, _⟩
          exact hE
        · intro hE
          exact ⟨hE, fun h => absurd h h4, fun h => absurd h h5,
            fun h => absurd h h6, fun h => absurd h h7, fun _ => hbs,
            fun h => absurd h hnd, fun h => absurd h hnm⟩
    · rw [if_neg (fun hc => hB hc.1)]
      by_cases hS : n = "search_and_replace"
      · subst hS
        have hgrp : getToolAliasGroup specRegistry "search_and_replace" =
            ["search_and_replace", "search_replace_alias"] := by decide
        rw [hgrp]
        simp only [List.any_cons, List.any_nil, Bool.or_false, Bool.or_eq_true]
        rw [hPiff, spec_pred_alias_false]
        simp only [Bool.false_eq_true, or_false]
        constructor
        · rintro ⟨hE, _⟩
          exact hE
        · intro hE
          exact ⟨hE, fun h => absurd h (by decide), fun h => absurd h (by decide),
            fun h => absurd h (by decide), fun h => absurd h (by decide),
            fun h => absurd h (by decide), fun h => absurd h (by decide),
            fun h => absurd h (by decide)⟩
      · have hTA : specRegistry.TOOL_ALIASES.lookup n = none := by
          rw [spec_TA_eq, lookup_cons_ne hS]
          rfl
        rw [getToolAliasGroup_of_none hTA halias]
        simp only [List.any_cons, List.any_nil, Bool.or_false]
        rw [hPiff]
        constructor
        · rintro ⟨hE, _⟩
          exact hE
        · intro hE
          exact ⟨hE, fun h => absurd h h4, fun h => absurd h h5,
            fun h => absurd h h6, fun h => absurd h h7, fun h => absurd h hB,
            fun h => absurd h hnd, fun h => absurd h hnm⟩

/-- Claim C1, amended: over the spec-modelled environment and registry,
with no modelInfo and identical inputs on both paths, a function-style
candidate whose name is not a registered alias and is neither apply_diff
nor access_mcp_resource (the two feature gates absent from
isToolAllowedInMode) is in the resolver output exactly when
isToolAllowedInMode answers true for its name. -/
theorem c1_cross_consistency_amended (mode : Option String)
    (cm : Option (List ModeConfig)) (exps : Experiments)
    (mgr : Option CodeIndexManager) (st : Settings) (hub : Option McpHub)
    (nativeTools : List ChatCompletionTool) (cd : ChatCompletionTool)
    (fn : ToolFunction)
    (hmi : st.modelInfo = none)
    (hcd : cd ∈ nativeTools) (hfn : cd.function = some fn)
    (halias : specRegistry.ALIAS_TO_CANONICAL.lookup fn.name = none)
    (hnd : fn.name ≠ "apply_diff") (hnm : fn.name ≠ "access_mcp_resource") :
    (cd ∈ filterNativeToolsForMode specEnv specRegistry nativeTools mode cm exps
        mgr st hub ↔
      isToolAllowedInMode specEnv specRegistry fn.name mode cm exps mgr st = true) := by
  have hrn : (computeAllowedSet specEnv specRegistry mode cm exps mgr st hub).2 = [] := by
    rw [computeAllowedSet_snd]
    unfold customizationResult
    rw [hmi]
    rfl
  rw [← c1_key mode cm exps mgr st hub fn.name hmi halias hnd hnm]
  constructor
  · intro he
    unfold filterNativeToolsForMode at he
    rw [List.mem_filterMap] at he
    obtain ⟨t, ht, hemit⟩ := he
    rw [emitTool_eq_some_iff] at hemit
    obtain ⟨fn', hfn', hmem', hcase⟩ := hemit
    rcases hcase with ⟨a, ha, hea⟩ | ⟨hrn', het⟩
    · rw [hrn] at ha
      simp [List.lookup] at ha
    · rw [← het] at hfn'
      rw [hfn] at hfn'
      cases hfn'
      exact hmem'
  · intro hm
    unfold filterNativeToolsForMode
    rw [List.mem_filterMap]
    refine ⟨cd, hcd, ?_⟩
    refine emitTool_self hfn hm ?_
    rw [hrn]
    rfl

/-- Witness for the amended C1 at a concrete input: read_file is allowed by
the predicate and therefore present in the resolver output. -/
theorem c1_witness :
    (⟨"function", some ⟨"read_file", "d"⟩⟩ : ChatCompletionTool) ∈
      filterNativeToolsForMode specEnv specRegistry
        [⟨"function", some ⟨"read_file", "d"⟩⟩] (some "code") none ⟨none, none⟩
        none ⟨none, none, none, none⟩ none :=
  (c1_cross_consistency_amended (some "code") none ⟨none, none⟩ none
    ⟨none, none, none, none⟩ none [⟨"function", some ⟨"read_file", "d"⟩⟩]
    ⟨"function", some ⟨"read_file", "d"⟩⟩ ⟨"read_file", "d"⟩ rfl (by decide) rfl
    (by decide) (by decide) (by decide)).mpr (by decide)

end RooTools
